import Mathlib

/-!
Verification of the priority-tiered refresh scheduler and TTL cache layer of
the ai-novine-fastapi repository, shallowly embedded in Lean 4.

Time is modelled in whole seconds as a natural number.  Python dictionaries
are modelled as association lists keyed by strings; an assignment overwrites
the existing binding, a pop removes it.  The in-process (memory) backend
paths of the two cache managers are embedded directly from the source; the
FakeRedis backend is an external collaborator and is out of scope.
-/

namespace AList0

/-- Lookup of a key in an association list (Python dict.get). -/
def alGet (k : String) : List (String × β) → Option β
  | [] => none
  | (k₁, v) :: rest => if k₁ = k then some v else alGet k rest

/-- Assignment of a key in an association list (Python dict assignment):
overwrites the existing binding or appends a fresh one. -/
def alSet (k : String) (v : β) : List (String × β) → List (String × β)
  | [] => [(k, v)]
  | (k₁, v₁) :: rest => if k₁ = k then (k, v) :: rest else (k₁, v₁) :: alSet k v rest

/-- Removal of a key from an association list (Python dict.pop with default). -/
def alErase (k : String) : List (String × β) → List (String × β)
  | [] => []
  | (k₁, v₁) :: rest => if k₁ = k then rest else (k₁, v₁) :: alErase k rest

end AList0

open AList0

/-- Python str.lower as used on category names: lowercases each character. -/
def String.pyLower (s : String) : String := String.mk (s.data.map Char.toLower)

/-! ## SimpleRedisManager (memory-cache path)

Embedded from app/services/simple_redis_manager.py.  A stored value is
either a list of articles (under a news key) or an ISO timestamp string,
modelled as the write-time in seconds (under a timestamp key). -/

namespace SimpleRedisManager

/-- The payload stored under a cache key: either the article list of a
news key or the write-time of a timestamp key. -/
inductive CacheVal where
  | articles : List String → CacheVal
  | stamp : Nat → CacheVal
deriving DecidableEq

/-- One entry of the memory cache: the data field and the expiration time
(seconds), mirroring the dict stored by set_news. -/
structure MemEntry where
  data : CacheVal
  expires_at : Nat
deriving DecidableEq

/-- State of the manager on the memory path: the memory_cache dict and the
hit and miss counters. -/
structure SimpleState where
  memory_cache : List (String × MemEntry)
  cache_hits : Nat
  cache_misses : Nat
deriving DecidableEq

def initSimple : SimpleState := { memory_cache := [], cache_hits := 0, cache_misses := 0 }

/-- set_news: stores the article list under news:{category.lower()} and the
write-time under timestamp:{category.lower()}, both expiring at
now + ttl_seconds; returns True. -/
def set_news (category : String) (articles : List String) (ttl_seconds : Nat)
    (now : Nat) (s : SimpleState) : Bool × SimpleState :=
  let cache_key := "news:" ++ category.pyLower
  let timestamp_key := "timestamp:" ++ category.pyLower
  let expires_at := now + ttl_seconds
  let mc := alSet cache_key ⟨CacheVal.articles articles, expires_at⟩ s.memory_cache
  let mc := alSet timestamp_key ⟨CacheVal.stamp now, expires_at⟩ mc
  (true, { s with memory_cache := mc })

/-- get_news: looks up news:{category.lower()}; a hit needs the entry
present with expires_at strictly in the future.  The memory_cache itself is
left untouched in both cases; only the hit or miss counter moves. -/
def get_news (category : String) (now : Nat) (s : SimpleState) :
    Option CacheVal × SimpleState :=
  let cache_key := "news:" ++ category.pyLower
  match alGet cache_key s.memory_cache with
  | some item =>
    if item.expires_at > now then
      (some item.data, { s with cache_hits := s.cache_hits + 1 })
    else
      (none, { s with cache_misses := s.cache_misses + 1 })
  | none => (none, { s with cache_misses := s.cache_misses + 1 })

/-- get_timestamp: looks up timestamp:{category.lower()}; returns the stored
write-time if present and unexpired, without touching any counter. -/
def get_timestamp (category : String) (now : Nat) (s : SimpleState) : Option CacheVal :=
  let timestamp_key := "timestamp:" ++ category.pyLower
  match alGet timestamp_key s.memory_cache with
  | some item => if item.expires_at > now then some item.data else none
  | none => none

/-- clear_category: pops both keys of the category from memory_cache and
returns True unconditionally. -/
def clear_category (category : String) (s : SimpleState) : Bool × SimpleState :=
  let cache_key := "news:" ++ category.pyLower
  let timestamp_key := "timestamp:" ++ category.pyLower
  let mc := alErase cache_key s.memory_cache
  let mc := alErase timestamp_key mc
  (true, { s with memory_cache := mc })

end SimpleRedisManager

/-! ## FallbackRedisManager (memory-cache path)

Embedded from app/services/fallback_redis_manager.py with the pure memory
backend (use_fakeredis = False).  Keys are namespaced by the fixed
CACHE_PREFIX default. -/

namespace FallbackRedisManager

/-- _make_key: the fixed key namespace applied to every caller key. -/
def mkKey (key : String) : String := "ai_novine:" ++ key

/-- One memory-cache entry written by set: the value, its expiration and
creation times and the access counter. -/
structure FbEntry where
  value : String
  expires_at : Nat
  created_at : Nat
  access_count : Nat
deriving DecidableEq

/-- State of the manager on the memory path: the memory_cache dict and the
four operation counters. -/
structure FbState where
  memory_cache : List (String × FbEntry)
  cache_hits : Nat
  cache_misses : Nat
  cache_sets : Nat
  cache_deletes : Nat
deriving DecidableEq

def initFb : FbState :=
  { memory_cache := [], cache_hits := 0, cache_misses := 0, cache_sets := 0, cache_deletes := 0 }

/-- set: stores the value under the namespaced key with
expires_at = now + ttl and a zero access counter, increments cache_sets and
returns True. -/
def fbSet (key : String) (value : String) (ttl : Nat) (now : Nat) (s : FbState) :
    Bool × FbState :=
  let cache_key := mkKey key
  let mc := alSet cache_key ⟨value, now + ttl, now, 0⟩ s.memory_cache
  (true, { s with memory_cache := mc, cache_sets := s.cache_sets + 1 })

/-- get: on a live entry bumps its access counter and the hit counter and
returns the value; on an expired entry deletes it from memory_cache and
counts a miss; on an absent key counts a miss. -/
def fbGet (key : String) (now : Nat) (s : FbState) : Option String × FbState :=
  let cache_key := mkKey key
  match alGet cache_key s.memory_cache with
  | some item =>
    if item.expires_at > now then
      (some item.value,
        { s with
            memory_cache :=
              alSet cache_key { item with access_count := item.access_count + 1 } s.memory_cache,
            cache_hits := s.cache_hits + 1 })
    else
      (none,
        { s with
            memory_cache := alErase cache_key s.memory_cache,
            cache_misses := s.cache_misses + 1 })
  | none => (none, { s with cache_misses := s.cache_misses + 1 })

/-- delete: reports whether the namespaced key was present, removes it when
it was (regardless of expiry) and then increments cache_deletes. -/
def fbDelete (key : String) (s : FbState) : Bool × FbState :=
  let cache_key := mkKey key
  let deleted := (alGet cache_key s.memory_cache).isSome
  if deleted then
    (true,
      { s with
          memory_cache := alErase cache_key s.memory_cache,
          cache_deletes := s.cache_deletes + 1 })
  else
    (false, s)

/-- _calculate_hit_rate: hits / (hits + misses) * 100 when any request has
been counted, otherwise 0.0. -/
def calculate_hit_rate (s : FbState) : ℚ :=
  let total := s.cache_hits + s.cache_misses
  if total > 0 then (s.cache_hits : ℚ) / (total : ℚ) * 100 else 0

/-- One cache operation, for reasoning about call sequences. -/
inductive FbOp where
  | opSet (key value : String) (ttl now : Nat)
  | opGet (key : String) (now : Nat)
  | opDelete (key : String)
deriving DecidableEq

def fbStep (s : FbState) : FbOp → FbState
  | .opSet k v ttl now => (fbSet k v ttl now s).2
  | .opGet k now => (fbGet k now s).2
  | .opDelete k => (fbDelete k s).2

def fbRun (ops : List FbOp) (s : FbState) : FbState := ops.foldl fbStep s

/-- Whether an operation is a get request. -/
def FbOp.isGet : FbOp → Bool
  | .opGet _ _ => true
  | _ => false

end FallbackRedisManager

/-! ## SmartNewsScheduler

Embedded from app/services/smart_scheduler.py: the static category catalog
with priorities and times-of-day, the TTL policy, the statistics updated by
fetch_category_news, the start and stop operations and the job guard
structure. -/

namespace SmartNewsScheduler

/-- The five categories of the static category_priorities catalog. -/
inductive Category where
  | hrvatska | svijet | ekonomija | sport | regija
deriving DecidableEq

def allCategories : List Category :=
  [.hrvatska, .svijet, .ekonomija, .sport, .regija]

inductive Priority where
  | high | medium | low
deriving DecidableEq

/-- The category name string used for keys and job ids. -/
def catName : Category → String
  | .hrvatska => "Hrvatska"
  | .svijet => "Svijet"
  | .ekonomija => "Ekonomija"
  | .sport => "Sport"
  | .regija => "Regija"

/-- The priority field of category_priorities. -/
def categoryPriority : Category → Priority
  | .hrvatska => .high
  | .svijet => .high
  | .ekonomija => .medium
  | .sport => .medium
  | .regija => .low

/-- The frequency field of category_priorities. -/
def categoryFrequency : Category → Nat
  | .hrvatska => 6
  | .svijet => 6
  | .ekonomija => 4
  | .sport => 4
  | .regija => 1

/-- The times field of category_priorities, as (hour, minute) pairs in the
order they are written in the source. -/
def categoryTimes : Category → List (Nat × Nat)
  | .hrvatska => [(6, 0), (9, 15), (15, 15), (18, 15), (23, 0), (2, 0)]
  | .svijet => [(6, 15), (12, 15), (18, 0), (21, 15), (2, 0), (9, 0)]
  | .ekonomija => [(9, 0), (15, 0), (12, 0), (18, 30)]
  | .sport => [(12, 0), (21, 0), (15, 30), (9, 30)]
  | .regija => [(23, 15)]

/-- _get_cache_ttl: the tier to TTL mapping in seconds. -/
def get_cache_ttl (category : Category) : Nat :=
  match categoryPriority category with
  | .high => 14400
  | .medium => 21600
  | .low => 86400

/-! ### Schedule gaps

The intervals between a category's consecutive daily trigger times,
including the wrap-around gap across midnight, derived from the static
times list. -/

/-- A time-of-day in minutes since midnight. -/
def slotMinutes (t : Nat × Nat) : Nat := t.1 * 60 + t.2

def insertSorted (x : Nat) : List Nat → List Nat
  | [] => [x]
  | y :: ys => if x ≤ y then x :: y :: ys else y :: insertSorted x ys

def sortTimes (l : List Nat) : List Nat := l.foldr insertSorted []

/-- Differences between consecutive elements, given the previous element. -/
def diffsFrom (prev : Nat) : List Nat → List Nat
  | [] => []
  | x :: xs => (x - prev) :: diffsFrom x xs

/-- The gaps, in minutes, between consecutive trigger times of one day,
with the wrap-around gap from the last trigger to the first of the next
day.  For a single trigger the only gap is the full day. -/
def gapsMinutes (times : List Nat) : List Nat :=
  match sortTimes times with
  | [] => []
  | t₀ :: rest => diffsFrom t₀ rest ++ [1440 + t₀ - (t₀ :: rest).getLastD t₀]

/-- The inter-refresh gaps of a category in seconds. -/
def gapsSeconds (c : Category) : List Nat :=
  (gapsMinutes ((categoryTimes c).map slotMinutes)).map (· * 60)

/-! ### Refresh statistics and fetch_category_news -/

/-- The per-category success and failed counters of category_stats. -/
structure CatStats where
  success : Nat
  failed : Nat
deriving DecidableEq

/-- The refresh_stats dict: three global counters and the per-category
table. -/
structure RefreshStats where
  total_refreshes : Nat
  successful_refreshes : Nat
  failed_refreshes : Nat
  category_stats : Category → CatStats

/-- refresh_stats as initialized in the constructor: all counters zero. -/
def initStats : RefreshStats :=
  { total_refreshes := 0, successful_refreshes := 0, failed_refreshes := 0,
    category_stats := fun _ => ⟨0, 0⟩ }

/-- fetch_category_news: the fetcher outcome is abstracted by fetch_ok
(result truthy and not the unavailable sentinel) and the cache write by
cache_ok (the boolean returned by set_news).  On fetch_ok and cache_ok the
success counters move and the call returns True; on any other outcome the
exception path moves the failure counters and the call returns False; the
finally block increments total_refreshes in every case. -/
def fetch_category_news (category : Category) (fetch_ok cache_ok : Bool)
    (s : RefreshStats) : Bool × RefreshStats :=
  if fetch_ok && cache_ok then
    (true,
      { s with
          successful_refreshes := s.successful_refreshes + 1,
          category_stats := fun c =>
            if c = category then
              { s.category_stats c with success := (s.category_stats c).success + 1 }
            else s.category_stats c,
          total_refreshes := s.total_refreshes + 1 })
  else
    (false,
      { s with
          failed_refreshes := s.failed_refreshes + 1,
          category_stats := fun c =>
            if c = category then
              { s.category_stats c with failed := (s.category_stats c).failed + 1 }
            else s.category_stats c,
          total_refreshes := s.total_refreshes + 1 })

/-- One completed invocation: a category together with its fetch and cache
outcomes. -/
abbrev FetchEvent := Category × Bool × Bool

def statStep (s : RefreshStats) (e : FetchEvent) : RefreshStats :=
  (fetch_category_news e.1 e.2.1 e.2.2 s).2

/-- The statistics after a sequence of completed invocations. -/
def runFetches (evs : List FetchEvent) (s : RefreshStats) : RefreshStats :=
  evs.foldl statStep s

/-- Sum of the per-category success counters over the catalog. -/
def sumSuccess (s : RefreshStats) : Nat :=
  (allCategories.map fun c => (s.category_stats c).success).sum

/-- Sum of the per-category failed counters over the catalog. -/
def sumFailed (s : RefreshStats) : Nat :=
  (allCategories.map fun c => (s.category_stats c).failed).sum

/-- The statistics invariant of the specification. -/
def statsInv (s : RefreshStats) : Prop :=
  s.total_refreshes = s.successful_refreshes + s.failed_refreshes ∧
  sumSuccess s = s.successful_refreshes ∧
  sumFailed s = s.failed_refreshes

end SmartNewsScheduler

namespace SmartNewsScheduler

/-! ### start_scheduler and stop_scheduler

The scheduler object is modelled by its running flag and the registered
job store, a dict from job id to job.  add_job with replace_existing=True
is dict assignment on the job id; shutdown tears the timer store down. -/

def pad2 (n : Nat) : String := if n < 10 then "0" ++ toString n else toString n

/-- The job id string built by start_scheduler from the category and the
time slot with the colon removed. -/
def jobId (c : Category) (t : Nat × Nat) : String :=
  catName c ++ "_" ++ pad2 t.1 ++ pad2 t.2

/-- A registered timer: the category and the time-of-day it fires at. -/
structure Job where
  category : Category
  hour : Nat
  minute : Nat
deriving DecidableEq

/-- The (job id, job) pairs registered by start_scheduler, one per
(category, time) pair of the static catalog. -/
def scheduleJobs : List (String × Job) :=
  allCategories.flatMap fun c => (categoryTimes c).map fun t => (jobId c t, ⟨c, t.1, t.2⟩)

inductive StartOutcome where
  | started | alreadyRunning
deriving DecidableEq

inductive StopOutcome where
  | stopped | notRunning
deriving DecidableEq

/-- The scheduler state: the is_running flag and the registered job store. -/
structure SchedState where
  is_running : Bool
  jobs : List (String × Job)
deriving DecidableEq

/-- The scheduler as constructed: not running, no registered jobs. -/
def initSched : SchedState := { is_running := false, jobs := [] }

/-- start_scheduler: when already running it only logs a warning and
returns; otherwise it registers every (category, time) job with
replace_existing semantics and sets is_running. -/
def start_scheduler (s : SchedState) : SchedState × StartOutcome :=
  if s.is_running then
    (s, .alreadyRunning)
  else
    ({ is_running := true,
       jobs := scheduleJobs.foldl (fun js j => alSet j.1 j.2 js) s.jobs }, .started)

/-- stop_scheduler: when not running it only logs a warning and returns;
otherwise it shuts the timer store down and clears is_running. -/
def stop_scheduler (s : SchedState) : SchedState × StopOutcome :=
  if s.is_running then
    ({ is_running := false, jobs := [] }, .stopped)
  else
    (s, .notRunning)

/-! ### Concurrency guard structure

An execution of fetch_category_news is started either by a scheduled
timer firing, identified by its (category, time-slot) job id and guarded by
max_instances=1 on that job, or by manual_refresh_category, which awaits
fetch_category_news directly with no in-flight check.  The in-flight set
evolves by start and finish events. -/

/-- An execution source: a scheduled job of one time slot, or a manual
refresh call. -/
inductive Trigger where
  | sched (c : Category) (hour minute : Nat)
  | manual (c : Category)
deriving DecidableEq

/-- The category an execution works on. -/
def Trigger.cat : Trigger → Category
  | .sched c _ _ => c
  | .manual c => c

/-- Whether a newly arriving trigger is allowed to start while the given
executions are in flight: max_instances=1 blocks a second instance of the
same scheduled job, while the manual path performs no check. -/
def canStart (fl : List Trigger) : Trigger → Bool
  | .sched c h m => if Trigger.sched c h m ∈ fl then false else true
  | .manual _ => true

inductive FlightEv where
  | fire (t : Trigger)
  | finish (t : Trigger)
deriving DecidableEq

/-- In-flight set transition: a fire event starts the execution when its
guard allows and is skipped otherwise; a finish event removes one
execution. -/
def flightStep (fl : List Trigger) : FlightEv → List Trigger
  | .fire t => if canStart fl t then t :: fl else fl
  | .finish t => fl.erase t

/-- The in-flight executions after a sequence of events, starting idle. -/
def runFlight (evs : List FlightEv) : List Trigger :=
  evs.foldl flightStep []

/-- How many in-flight executions work on the given category. -/
def inFlightForCat (c : Category) (fl : List Trigger) : Nat :=
  (fl.filter fun t => t.cat = c).length

end SmartNewsScheduler

/-! ## Helper lemmas -/

namespace AList0

theorem alGet_alSet_self (k : String) (v : β) (l : List (String × β)) :
    alGet k (alSet k v l) = some v := by
  induction l with
  | nil => simp [alGet, alSet]
  | cons hd tl ih =>
    by_cases h : hd.1 = k
    · simp [alSet, alGet, h]
    · simp [alSet, alGet, h, ih]

theorem alGet_alSet_ne (k k₁ : String) (v : β) (l : List (String × β)) (h : k₁ ≠ k) :
    alGet k (alSet k₁ v l) = alGet k l := by
  induction l with
  | nil => simp [alGet, alSet, h]
  | cons hd tl ih =>
    by_cases h₂ : hd.1 = k₁
    · simp [alSet, alGet, h₂, h]
    · simp [alSet, alGet, h₂, ih]

theorem alGet_alErase_self (k : String) (l : List (String × β))
    (hnd : (l.map Prod.fst).Nodup) : alGet k (alErase k l) = none := by
  induction l with
  | nil => simp [alErase, alGet]
  | cons hd tl ih =>
    simp only [List.map_cons, List.nodup_cons] at hnd
    by_cases h : hd.1 = k
    · subst h
      cases htl : alGet hd.1 tl with
      | none => simpa [alErase] using htl
      | some v =>
        exfalso
        apply hnd.1
        clear ih hnd
        induction tl with
        | nil => simp [alGet] at htl
        | cons hd₂ tl₂ ih₂ =>
          by_cases h₂ : hd₂.1 = hd.1
          · simp [h₂]
          · simp only [alGet, h₂, if_false] at htl
            simp [ih₂ htl]
    · simp [alErase, alGet, h, ih hnd.2]

theorem alGet_alErase_ne (k k₁ : String) (l : List (String × β)) (h : k₁ ≠ k) :
    alGet k (alErase k₁ l) = alGet k l := by
  induction l with
  | nil => simp [alErase, alGet]
  | cons hd tl ih =>
    by_cases h₂ : hd.1 = k₁
    · simp [alErase, alGet, h₂, h, Ne.symm (h₂ ▸ h)]
    · simp [alErase, alGet, h₂, ih]

end AList0

/-- The timestamp key and the news key of any pair of categories never
collide: the namespaces differ in length. -/
theorem timestamp_key_ne_news_key (x : String) :
    ("timestamp:" ++ x) ≠ ("news:" ++ x) := by
  intro h
  have h₂ := congrArg String.length h
  simp only [String.length_append] at h₂
  have hx : ("timestamp:" : String).length = 10 := by decide
  have hy : ("news:" : String).length = 5 := by decide
  rw [hx, hy] at h₂
  omega

namespace SimpleRedisManager

/-- C4: a get after a set returns the stored articles while the current
time is strictly before the set time plus ttl_seconds, and returns none at
or after that instant; with ttl_seconds = 0 the entry is already expired on
the next read. -/
theorem get_after_set_ttl (category : String) (articles : List String)
    (ttl_seconds now t : Nat) (s : SimpleState) :
    (t < now + ttl_seconds →
      (get_news category t (set_news category articles ttl_seconds now s).2).1
        = some (CacheVal.articles articles)) ∧
    (now + ttl_seconds ≤ t →
      (get_news category t (set_news category articles ttl_seconds now s).2).1 = none) := by
  have hkey :
      alGet ("news:" ++ category.pyLower)
        (set_news category articles ttl_seconds now s).2.memory_cache
        = some ⟨CacheVal.articles articles, now + ttl_seconds⟩ := by
    simp only [set_news]
    rw [alGet_alSet_ne _ _ _ _ (timestamp_key_ne_news_key _), alGet_alSet_self]
  constructor
  · intro h
    simp only [get_news, hkey]
    simp only [gt_iff_lt]
    rw [if_pos h]
  · intro h
    simp only [get_news, hkey]
    simp only [gt_iff_lt]
    rw [if_neg (by omega)]

/-- Witness for C4 at a concrete input: one read inside the TTL window, one
at expiry, and one after a set with TTL zero. -/
theorem get_after_set_ttl_witness :
    (get_news "Sport" 100 (set_news "Sport" ["a1", "a2"] 7200 0 initSimple).2).1
      = some (CacheVal.articles ["a1", "a2"]) ∧
    (get_news "Sport" 7200 (set_news "Sport" ["a1", "a2"] 7200 0 initSimple).2).1 = none ∧
    (get_news "Sport" 50 (set_news "Sport" ["a1", "a2"] 0 50 initSimple).2).1 = none :=
  ⟨(get_after_set_ttl "Sport" ["a1", "a2"] 7200 0 100 initSimple).1 (by decide),
   (get_after_set_ttl "Sport" ["a1", "a2"] 7200 0 7200 initSimple).2 (by decide),
   (get_after_set_ttl "Sport" ["a1", "a2"] 0 50 50 initSimple).2 (by decide)⟩

end SimpleRedisManager

namespace AList0

theorem mem_keys_of_mem_keys_alSet (k x : String) (v : β) (l : List (String × β))
    (h : x ∈ (alSet k v l).map Prod.fst) : x = k ∨ x ∈ l.map Prod.fst := by
  induction l with
  | nil => simpa [alSet] using h
  | cons hd tl ih =>
    by_cases h₂ : hd.1 = k
    · simp only [alSet, h₂, if_true, List.map_cons, List.mem_cons] at h
      rcases h with h | h
      · exact Or.inl h
      · exact Or.inr (by simp [h])
    · simp only [alSet, h₂, if_false, List.map_cons, List.mem_cons] at h
      rcases h with h | h
      · exact Or.inr (by simp [h])
      · rcases ih h with h₃ | h₃
        · exact Or.inl h₃
        · exact Or.inr (by simp [h₃])

theorem alSet_keys_nodup (k : String) (v : β) (l : List (String × β))
    (h : (l.map Prod.fst).Nodup) : ((alSet k v l).map Prod.fst).Nodup := by
  induction l with
  | nil => simp [alSet]
  | cons hd tl ih =>
    simp only [List.map_cons, List.nodup_cons] at h
    by_cases h₂ : hd.1 = k
    · subst h₂
      simpa [alSet] using h
    · simp only [alSet, h₂, if_false, List.map_cons, List.nodup_cons]
      refine ⟨fun hmem => ?_, ih h.2⟩
      rcases mem_keys_of_mem_keys_alSet k hd.1 v tl hmem with h₃ | h₃
      · exact h₂ h₃
      · exact h.1 h₃

theorem alErase_sublist (k : String) (l : List (String × β)) : List.Sublist (alErase k l) l := by
  induction l with
  | nil => simp [alErase]
  | cons hd tl ih =>
    by_cases h : hd.1 = k
    · simp only [alErase, h, if_true]
      exact List.sublist_cons_self hd tl
    · simpa [alErase, h] using List.Sublist.cons₂ hd ih

theorem alErase_keys_nodup (k : String) (l : List (String × β))
    (h : (l.map Prod.fst).Nodup) : ((alErase k l).map Prod.fst).Nodup :=
  List.Nodup.sublist (List.Sublist.map Prod.fst (alErase_sublist k l)) h

end AList0

namespace SimpleRedisManager

/-- C10: every cache key lowercases the caller-supplied category, so two
spellings with the same lowercase form address the same news and timestamp
entries: a get under the second spelling returns what was set under the
first, and a clear under the second spelling removes both entries written
under the first. -/
theorem cache_keys_case_insensitive (c₁ c₂ : String) (articles : List String)
    (ttl_seconds now t : Nat) (s : SimpleState)
    (hl : c₁.pyLower = c₂.pyLower)
    (hnd : (s.memory_cache.map Prod.fst).Nodup)
    (ht : t < now + ttl_seconds) :
    (get_news c₂ t (set_news c₁ articles ttl_seconds now s).2).1
      = some (CacheVal.articles articles) ∧
    get_timestamp c₂ t (set_news c₁ articles ttl_seconds now s).2
      = some (CacheVal.stamp now) ∧
    alGet ("news:" ++ c₁.pyLower)
      ((clear_category c₂ (set_news c₁ articles ttl_seconds now s).2).2).memory_cache
      = none ∧
    alGet ("timestamp:" ++ c₁.pyLower)
      ((clear_category c₂ (set_news c₁ articles ttl_seconds now s).2).2).memory_cache
      = none := by
  have hck : ("news:" ++ c₂.pyLower) = ("news:" ++ c₁.pyLower) := by rw [hl]
  have htk : ("timestamp:" ++ c₂.pyLower) = ("timestamp:" ++ c₁.pyLower) := by rw [hl]
  have hstore : (set_news c₁ articles ttl_seconds now s).2.memory_cache
      = alSet ("timestamp:" ++ c₁.pyLower) ⟨CacheVal.stamp now, now + ttl_seconds⟩
          (alSet ("news:" ++ c₁.pyLower) ⟨CacheVal.articles articles, now + ttl_seconds⟩
            s.memory_cache) := rfl
  have hndstore :
      (((set_news c₁ articles ttl_seconds now s).2.memory_cache).map Prod.fst).Nodup := by
    rw [hstore]
    exact alSet_keys_nodup _ _ _ (alSet_keys_nodup _ _ _ hnd)
  refine ⟨?_, ?_, ?_, ?_⟩
  · simp only [get_news, hck, hstore]
    rw [alGet_alSet_ne _ _ _ _ (timestamp_key_ne_news_key _), alGet_alSet_self]
    simp only [gt_iff_lt]
    rw [if_pos ht]
  · simp only [get_timestamp, htk, hstore]
    rw [alGet_alSet_self]
    simp only [gt_iff_lt]
    rw [if_pos ht]
  · simp only [clear_category, hck, htk]
    rw [alGet_alErase_ne _ _ _ (timestamp_key_ne_news_key _),
        alGet_alErase_self _ _ hndstore]
  · simp only [clear_category, hck, htk]
    rw [alGet_alErase_self _ _ (alErase_keys_nodup _ _ hndstore)]

/-- Witness for C10 with the spellings Sport and sPORT. -/
theorem cache_keys_case_insensitive_witness :
    (get_news "sPORT" 10 (set_news "Sport" ["a"] 100 0 initSimple).2).1
      = some (CacheVal.articles ["a"]) ∧
    get_timestamp "sPORT" 10 (set_news "Sport" ["a"] 100 0 initSimple).2
      = some (CacheVal.stamp 0) ∧
    alGet ("news:" ++ "Sport".pyLower)
      ((clear_category "sPORT" (set_news "Sport" ["a"] 100 0 initSimple).2).2).memory_cache
      = none ∧
    alGet ("timestamp:" ++ "Sport".pyLower)
      ((clear_category "sPORT" (set_news "Sport" ["a"] 100 0 initSimple).2).2).memory_cache
      = none :=
  cache_keys_case_insensitive "Sport" "sPORT" ["a"] 100 0 10 initSimple
    (by decide) (by decide) (by decide)

end SimpleRedisManager

namespace FallbackRedisManager

theorem no_get_no_requests (ops : List FbOp) (s : FbState)
    (hng : ops.all (fun op => !op.isGet) = true) :
    (fbRun ops s).cache_hits = s.cache_hits ∧
    (fbRun ops s).cache_misses = s.cache_misses := by
  induction ops generalizing s with
  | nil => exact ⟨rfl, rfl⟩
  | cons op rest ih =>
    simp only [List.all_cons, Bool.and_eq_true] at hng
    have hstep : (fbStep s op).cache_hits = s.cache_hits ∧
        (fbStep s op).cache_misses = s.cache_misses := by
      cases op with
      | opSet k v ttl now => exact ⟨rfl, rfl⟩
      | opGet k now => simp [FbOp.isGet] at hng
      | opDelete k =>
        simp only [fbStep, fbDelete]
        by_cases h : (alGet (mkKey k) s.memory_cache).isSome
        · rw [if_pos h]
          exact ⟨rfl, rfl⟩
        · rw [if_neg h]
          exact ⟨rfl, rfl⟩
    have := ih (fbStep s op) hng.2
    simp only [fbRun, List.foldl_cons] at *
    omega

/-- C6: the hit rate is computed from the current counters on every call:
it equals hits divided by hits plus misses times 100 whenever any get has
been counted, is exactly 0 when hits and misses are both 0, and stays
exactly 0 after any sequence of operations that contains no get request. -/
theorem hit_rate_spec (s : FbState) (ops : List FbOp) :
    (s.cache_hits + s.cache_misses > 0 →
      calculate_hit_rate s
        = (s.cache_hits : ℚ) / ((s.cache_hits : ℚ) + (s.cache_misses : ℚ)) * 100) ∧
    (s.cache_hits + s.cache_misses = 0 → calculate_hit_rate s = 0) ∧
    (ops.all (fun op => !op.isGet) = true → calculate_hit_rate (fbRun ops initFb) = 0) := by
  refine ⟨fun h => ?_, fun h => ?_, fun h => ?_⟩
  · simp only [calculate_hit_rate, if_pos h]
    push_cast
    ring
  · simp only [calculate_hit_rate, h]
    simp
  · have h₂ := no_get_no_requests ops initFb h
    have hh : (fbRun ops initFb).cache_hits = 0 := h₂.1
    have hm : (fbRun ops initFb).cache_misses = 0 := h₂.2
    simp [calculate_hit_rate, hh, hm]

/-- Witness for C6: one hit and three misses give a 25 percent rate, and a
set followed by a delete leaves the rate at 0. -/
theorem hit_rate_spec_witness :
    calculate_hit_rate ⟨[], 1, 3, 0, 0⟩ = (1 : ℚ) / ((1 : ℚ) + (3 : ℚ)) * 100 ∧
    calculate_hit_rate ⟨[], 0, 0, 5, 2⟩ = 0 ∧
    calculate_hit_rate
      (fbRun [FbOp.opSet "stocks" "payload" 600 0, FbOp.opDelete "stocks"] initFb) = 0 :=
  ⟨(hit_rate_spec ⟨[], 1, 3, 0, 0⟩ []).1 (by decide),
   (hit_rate_spec ⟨[], 0, 0, 5, 2⟩ []).2.1 (by decide),
   (hit_rate_spec initFb [FbOp.opSet "stocks" "payload" 600 0, FbOp.opDelete "stocks"]).2.2
     (by decide)⟩

end FallbackRedisManager

namespace FallbackRedisManager

/-- C7 (amended): a get on an expired key returns absent in both managers;
FallbackRedisManager.get also removes the expired entry from the backing
map, while SimpleRedisManager.get_news leaves its memory cache untouched
and only treats the entry as absent. -/
theorem get_expired_lazy_removal (key : String) (now : Nat) (s : FbState) (e : FbEntry)
    (category : String) (s₂ : SimpleRedisManager.SimpleState)
    (e₂ : SimpleRedisManager.MemEntry)
    (hnd : (s.memory_cache.map Prod.fst).Nodup)
    (hf : alGet (mkKey key) s.memory_cache = some e)
    (he : e.expires_at ≤ now)
    (hf₂ : alGet ("news:" ++ category.pyLower) s₂.memory_cache = some e₂)
    (he₂ : e₂.expires_at ≤ now) :
    (fbGet key now s).1 = none ∧
    alGet (mkKey key) ((fbGet key now s).2).memory_cache = none ∧
    (SimpleRedisManager.get_news category now s₂).1 = none ∧
    ((SimpleRedisManager.get_news category now s₂).2).memory_cache = s₂.memory_cache := by
  refine ⟨?_, ?_, ?_, ?_⟩
  · simp only [fbGet, hf]
    rw [if_neg (by omega)]
  · simp only [fbGet, hf]
    rw [if_neg (by omega)]
    exact alGet_alErase_self _ _ hnd
  · simp only [SimpleRedisManager.get_news, hf₂]
    rw [if_neg (by omega)]
  · simp only [SimpleRedisManager.get_news, hf₂]
    rw [if_neg (by omega)]

/-- Witness for the amended C7 at concrete expired entries in both
managers. -/
theorem get_expired_lazy_removal_witness :
    (fbGet "news_x" 10 ⟨[("ai_novine:news_x", ⟨"v", 5, 0, 0⟩)], 0, 0, 1, 0⟩).1 = none ∧
    alGet (mkKey "news_x")
      ((fbGet "news_x" 10 ⟨[("ai_novine:news_x", ⟨"v", 5, 0, 0⟩)], 0, 0, 1, 0⟩).2).memory_cache
      = none ∧
    (SimpleRedisManager.get_news "sport" 10
        ⟨[("news:sport", ⟨SimpleRedisManager.CacheVal.articles ["a"], 5⟩)], 0, 0⟩).1 = none ∧
    ((SimpleRedisManager.get_news "sport" 10
        ⟨[("news:sport", ⟨SimpleRedisManager.CacheVal.articles ["a"], 5⟩)], 0, 0⟩).2).memory_cache
      = [("news:sport", ⟨SimpleRedisManager.CacheVal.articles ["a"], 5⟩)] :=
  get_expired_lazy_removal "news_x" 10 ⟨[("ai_novine:news_x", ⟨"v", 5, 0, 0⟩)], 0, 0, 1, 0⟩
    ⟨"v", 5, 0, 0⟩ "sport" ⟨[("news:sport", ⟨SimpleRedisManager.CacheVal.articles ["a"], 5⟩)], 0, 0⟩
    ⟨SimpleRedisManager.CacheVal.articles ["a"], 5⟩
    (by decide) (by decide) (by decide) (by decide) (by decide)

/-- C7 counterexample: a get on an expired key of SimpleRedisManager
returns absent but the expired entry is still physically in the backing
map afterwards. -/
theorem simple_get_expired_leaves_entry :
    (SimpleRedisManager.get_news "sport" 10
        ⟨[("news:sport", ⟨SimpleRedisManager.CacheVal.articles ["a"], 5⟩)], 0, 0⟩).1 = none ∧
    alGet "news:sport"
      ((SimpleRedisManager.get_news "sport" 10
          ⟨[("news:sport", ⟨SimpleRedisManager.CacheVal.articles ["a"], 5⟩)], 0, 0⟩).2).memory_cache
      = some ⟨SimpleRedisManager.CacheVal.articles ["a"], 5⟩ :=
  ⟨by decide, by decide⟩

/-- C8 (amended): FallbackRedisManager.delete removes the entry regardless
of its expiry state and returns whether the key was present, while
SimpleRedisManager.clear_category also removes regardless of expiry but
returns true unconditionally. -/
theorem delete_returns_presence (key : String) (s : FbState)
    (hnd : (s.memory_cache.map Prod.fst).Nodup) :
    (fbDelete key s).1 = (alGet (mkKey key) s.memory_cache).isSome ∧
    alGet (mkKey key) ((fbDelete key s).2).memory_cache = none ∧
    (∀ (c : String) (s₂ : SimpleRedisManager.SimpleState),
      (SimpleRedisManager.clear_category c s₂).1 = true) := by
  refine ⟨?_, ?_, fun _ _ => rfl⟩
  · cases h : alGet (mkKey key) s.memory_cache with
    | some e =>
      have hs : (alGet (mkKey key) s.memory_cache).isSome = true := by rw [h]; rfl
      simp [fbDelete, hs]
    | none =>
      have hs : (alGet (mkKey key) s.memory_cache).isSome = false := by rw [h]; rfl
      simp [fbDelete, hs]
  · cases h : alGet (mkKey key) s.memory_cache with
    | some e =>
      have hs : (alGet (mkKey key) s.memory_cache).isSome = true := by rw [h]; rfl
      simp only [fbDelete, hs, if_true]
      exact alGet_alErase_self _ _ hnd
    | none =>
      have hs : (alGet (mkKey key) s.memory_cache).isSome = false := by rw [h]; rfl
      simp only [fbDelete, hs, Bool.false_eq_true, if_false]
      exact h

/-- Witness for the amended C8 at a concrete store holding one expired
entry. -/
theorem delete_returns_presence_witness :
    (fbDelete "stocks" ⟨[("ai_novine:stocks", ⟨"v", 5, 0, 0⟩)], 0, 0, 1, 0⟩).1
      = (alGet (mkKey "stocks")
          (⟨[("ai_novine:stocks", ⟨"v", 5, 0, 0⟩)], 0, 0, 1, 0⟩ : FbState).memory_cache).isSome ∧
    alGet (mkKey "stocks")
      ((fbDelete "stocks" ⟨[("ai_novine:stocks", ⟨"v", 5, 0, 0⟩)], 0, 0, 1, 0⟩).2).memory_cache
      = none ∧
    (∀ (c : String) (s₂ : SimpleRedisManager.SimpleState),
      (SimpleRedisManager.clear_category c s₂).1 = true) :=
  delete_returns_presence "stocks" ⟨[("ai_novine:stocks", ⟨"v", 5, 0, 0⟩)], 0, 0, 1, 0⟩ (by decide)

/-- C8 counterexample: clear_category on an empty store returns true even
though no entry for the key was present at the time of the call. -/
theorem clear_category_true_without_entry :
    (SimpleRedisManager.clear_category "Sport" SimpleRedisManager.initSimple).1 = true ∧
    alGet ("news:" ++ "Sport".pyLower) SimpleRedisManager.initSimple.memory_cache = none :=
  ⟨rfl, rfl⟩

end FallbackRedisManager

namespace SmartNewsScheduler

/-- C3 counterexample: Hrvatska is a high-priority category with a
14400-second TTL, but its own schedule has a 21600-second gap between the
09:15 and 15:15 refreshes, so a cache read in the last two hours of that
window is a miss even without an external clear.  The claimed property
fails as stated. -/
theorem ttl_gap_counterexample :
    get_cache_ttl Category.hrvatska = 14400 ∧
    21600 ∈ gapsSeconds Category.hrvatska ∧
    get_cache_ttl Category.hrvatska < 21600 := by
  refine ⟨rfl, ?_, by decide⟩
  decide

/-- C3 (amended): the tier TTL mapping is high to 14400, medium to 21600
and low to 86400 seconds; the TTL of the single low-priority category
Regija covers its whole refresh cycle, and for every category the TTL
covers at least the smallest inter-refresh gap, but it does not cover
every gap of any high- or medium-priority category. -/
theorem ttl_covers_only_some_gaps :
    get_cache_ttl Category.hrvatska = 14400 ∧
    get_cache_ttl Category.svijet = 14400 ∧
    get_cache_ttl Category.ekonomija = 21600 ∧
    get_cache_ttl Category.sport = 21600 ∧
    get_cache_ttl Category.regija = 86400 ∧
    gapsSeconds Category.regija = [86400] ∧
    (∀ c : Category, ∃ g, g ∈ gapsSeconds c ∧ g ≤ get_cache_ttl c) ∧
    (∀ c : Category, categoryPriority c ≠ Priority.low →
      ∃ g, g ∈ gapsSeconds c ∧ get_cache_ttl c < g) := by
  refine ⟨rfl, rfl, rfl, rfl, rfl, by decide, fun c => ?_, fun c hc => ?_⟩
  · cases c <;> decide
  · cases c <;> first | decide | exact absurd rfl hc

/-- Witness for the amended C3 at the medium-priority category Ekonomija:
its 52200-second overnight gap exceeds the 21600-second TTL. -/
theorem ttl_covers_only_some_gaps_witness :
    ∃ g, g ∈ gapsSeconds Category.ekonomija ∧ get_cache_ttl Category.ekonomija < g :=
  ttl_covers_only_some_gaps.2.2.2.2.2.2.2 Category.ekonomija (by decide)

end SmartNewsScheduler

namespace SmartNewsScheduler

theorem statStep_inv (s : RefreshStats) (e : FetchEvent) (h : statsInv s) :
    statsInv (statStep s e) := by
  obtain ⟨cat, f, c⟩ := e
  obtain ⟨h₁, h₂, h₃⟩ := h
  simp only [statsInv, sumSuccess, sumFailed, allCategories, List.map_cons, List.map_nil,
    List.sum_cons, List.sum_nil] at h₂ h₃ ⊢
  simp only [statStep, fetch_category_news]
  by_cases hfc : (f && c) = true
  · rw [if_pos hfc]
    cases cat <;> simp <;> omega
  · rw [if_neg hfc]
    cases cat <;> simp <;> omega

theorem runFetches_inv_aux (evs : List FetchEvent) (s : RefreshStats) (h : statsInv s) :
    statsInv (runFetches evs s) := by
  induction evs generalizing s with
  | nil => exact h
  | cons e rest ih =>
    simp only [runFetches, List.foldl_cons]
    exact ih (statStep s e) (statStep_inv s e h)

theorem statStep_mono (s : RefreshStats) (e : FetchEvent) :
    s.total_refreshes ≤ (statStep s e).total_refreshes ∧
    s.successful_refreshes ≤ (statStep s e).successful_refreshes ∧
    s.failed_refreshes ≤ (statStep s e).failed_refreshes := by
  obtain ⟨cat, f, c⟩ := e
  simp only [statStep, fetch_category_news]
  by_cases hfc : (f && c) = true
  · rw [if_pos hfc]
    exact ⟨Nat.le_succ _, Nat.le_succ _, Nat.le_refl _⟩
  · rw [if_neg hfc]
    exact ⟨Nat.le_succ _, Nat.le_refl _, Nat.le_succ _⟩

theorem runFetches_mono (evs : List FetchEvent) (s : RefreshStats) :
    s.total_refreshes ≤ (runFetches evs s).total_refreshes ∧
    s.successful_refreshes ≤ (runFetches evs s).successful_refreshes ∧
    s.failed_refreshes ≤ (runFetches evs s).failed_refreshes := by
  induction evs generalizing s with
  | nil => exact ⟨Nat.le_refl _, Nat.le_refl _, Nat.le_refl _⟩
  | cons e rest ih =>
    have h₁ := statStep_mono s e
    have h₂ := ih (statStep s e)
    simp only [runFetches, List.foldl_cons] at h₂ ⊢
    exact ⟨h₁.1.trans h₂.1, h₁.2.1.trans h₂.2.1, h₁.2.2.trans h₂.2.2⟩

/-- C1: after any sequence of completed fetch-and-cache invocations the
statistics satisfy total = success + failed, the per-category counters sum
to the corresponding globals, and all three global counters never decrease
along any continuation of the sequence. -/
theorem refresh_stats_invariant (evs rest : List FetchEvent) :
    statsInv (runFetches evs initStats) ∧
    (runFetches evs initStats).total_refreshes
      ≤ (runFetches (evs ++ rest) initStats).total_refreshes ∧
    (runFetches evs initStats).successful_refreshes
      ≤ (runFetches (evs ++ rest) initStats).successful_refreshes ∧
    (runFetches evs initStats).failed_refreshes
      ≤ (runFetches (evs ++ rest) initStats).failed_refreshes := by
  have hinit : statsInv initStats := ⟨rfl, rfl, rfl⟩
  have happ : runFetches (evs ++ rest) initStats
      = runFetches rest (runFetches evs initStats) := by
    simp [runFetches, List.foldl_append]
  refine ⟨runFetches_inv_aux evs initStats hinit, ?_, ?_, ?_⟩ <;> rw [happ]
  · exact (runFetches_mono rest _).1
  · exact (runFetches_mono rest _).2.1
  · exact (runFetches_mono rest _).2.2

/-- C2: every invocation of fetch_category_news increments total_refreshes
exactly once, win or lose, and returns true exactly when the fetch
succeeded and the cache write succeeded; in particular a successful fetch
followed by a failed cache write returns false. -/
theorem fetch_category_news_contract (category : Category) (fetch_ok cache_ok : Bool)
    (s : RefreshStats) :
    (fetch_category_news category fetch_ok cache_ok s).2.total_refreshes
      = s.total_refreshes + 1 ∧
    (fetch_category_news category fetch_ok cache_ok s).1 = (fetch_ok && cache_ok) := by
  cases hfc : (fetch_ok && cache_ok) <;> simp [fetch_category_news, hfc]

end SmartNewsScheduler

namespace SmartNewsScheduler

/-- C9: start on a running scheduler is an observable no-op that reports
already running instead of raising, so two consecutive starts equal one
start; and stop followed by start registers exactly the same timer store
as the original start did. -/
theorem start_stop_round_trip :
    (∀ s : SchedState, s.is_running = true →
      start_scheduler s = (s, StartOutcome.alreadyRunning)) ∧
    (start_scheduler ((stop_scheduler (start_scheduler initSched).1).1)).1.jobs
      = (start_scheduler initSched).1.jobs ∧
    (start_scheduler (start_scheduler initSched).1).1 = (start_scheduler initSched).1 := by
  refine ⟨fun s h => ?_, rfl, rfl⟩
  simp [start_scheduler, h]

/-- Witness for C9: the second of two consecutive starts from the initial
state is the no-op. -/
theorem start_stop_round_trip_witness :
    start_scheduler (start_scheduler initSched).1
      = ((start_scheduler initSched).1, StartOutcome.alreadyRunning) :=
  start_stop_round_trip.1 (start_scheduler initSched).1 rfl

theorem sched_job_single_flight_aux (evs : List FlightEv) (fl : List Trigger)
    (h : ∀ (c : Category) (hr mi : Nat), fl.count (Trigger.sched c hr mi) ≤ 1) :
    ∀ (c : Category) (hr mi : Nat),
      (evs.foldl flightStep fl).count (Trigger.sched c hr mi) ≤ 1 := by
  induction evs generalizing fl with
  | nil => exact h
  | cons e rest ih =>
    simp only [List.foldl_cons]
    apply ih
    intro c hr mi
    cases e with
    | finish t =>
      exact le_trans (List.Sublist.count_le (List.erase_sublist t fl) _) (h c hr mi)
    | fire t =>
      simp only [flightStep]
      by_cases hcs : canStart fl t = true
      · rw [if_pos hcs, List.count_cons]
        by_cases ht : Trigger.sched c hr mi = t
        · subst ht
          by_cases hmem : Trigger.sched c hr mi ∈ fl
          · rw [canStart, if_pos hmem] at hcs
            exact absurd hcs (by simp)
          · have h₀ : fl.count (Trigger.sched c hr mi) = 0 :=
              List.count_eq_zero.mpr hmem
            simp [h₀]
        · have hne : (t == Trigger.sched c hr mi) = false := by
            simpa using fun h₂ => ht h₂.symm
          rw [hne]
          simpa using h c hr mi
      · rw [if_neg hcs]
        exact h c hr mi

/-- C5 (amended): the scheduled path is single-flight only per
(category, time-slot) job: over any sequence of fire and finish events,
max_instances=1 never lets two instances of the same scheduled job be in
flight at once.  The guard is per job rather than per category, and the
manual path has no guard at all, so a manual refresh overlaps an in-flight
run of the same category. -/
theorem sched_job_single_flight (evs : List FlightEv) (c : Category) (hr mi : Nat) :
    (runFlight evs).count (Trigger.sched c hr mi) ≤ 1 :=
  sched_job_single_flight_aux evs [] (fun _ _ _ => by simp) c hr mi

/-- C5 counterexample: a manual refresh arriving while a scheduled run for
Hrvatska is in flight passes the guard, so two executions for the same
category are in flight at once and both reach the cache-write step. -/
theorem manual_overlap_counterexample :
    canStart (runFlight [FlightEv.fire (Trigger.sched Category.hrvatska 6 0)])
        (Trigger.manual Category.hrvatska) = true ∧
    inFlightForCat Category.hrvatska
      (runFlight [FlightEv.fire (Trigger.sched Category.hrvatska 6 0),
                  FlightEv.fire (Trigger.manual Category.hrvatska)]) = 2 := by
  exact ⟨by decide, by decide⟩

end SmartNewsScheduler
